import Mathlib

/-!
Shallow embedding of `aviation_radio` (src/src/lib.rs): a validated
aviation radio-frequency value type with construction (`RadioFrequency.new`),
accessors, Display-style formatting, and `FromStr`-style parsing.
Rust `u16` values are modelled as `Nat` with explicit `≤ U16_MAX` bounds
where the width matters (parsing overflow, round-trip).
Strings are modelled as `List Char`.
-/

namespace AviationRadio

/-- Maximum value of a Rust `u16`. -/
def U16_MAX : Nat := 65535

/-- The kinds of `std::num::ParseIntError` reachable from `u16::from_str`:
empty input, a non-digit character, positive overflow (value > u16::MAX),
negative overflow (a `-` sign followed by a nonzero digit). -/
inductive ParseIntError where
  | empty
  | invalidDigit
  | posOverflow
  | negOverflow
  deriving DecidableEq, Repr

/-- `RadioFrequencyError` from the source: `InvalidFrequency`,
`NotEnoughParts`, `ParseError(ParseIntError)`. -/
inductive RadioFrequencyError where
  | invalidFrequency
  | notEnoughParts
  | parseError (e : ParseIntError)
  deriving DecidableEq, Repr

/-- The struct `RadioFrequency { left: u16, right: u16, is_25_khz_spaced: bool }`. -/
structure RadioFrequency where
  left : Nat
  right : Nat
  is_25_khz_spaced : Bool
  deriving DecidableEq, Repr

end AviationRadio

deriving instance DecidableEq for Except

namespace AviationRadio

/-- `VALID_CHANNELS` from the source: the 16 valid channel codes. -/
def VALID_CHANNELS : List Nat := [0, 5, 10, 15, 25, 30, 35, 40, 50, 55, 60, 65, 75, 80, 85, 90]

/-- `RadioFrequency::new`: validate `left ∈ [118, 137]`, then validate
`right % 100 ∈ VALID_CHANNELS`; on success store both parts unchanged and
derive `is_25_khz_spaced` from membership of `right % 100` in `[0,25,50,75]`. -/
def RadioFrequency.new (left right : Nat) : Except RadioFrequencyError RadioFrequency :=
  if ¬ (118 ≤ left ∧ left ≤ 137) then
    .error .invalidFrequency
  else
    let last_two := right % 100
    if ¬ (VALID_CHANNELS.contains last_two) then
      .error .invalidFrequency
    else
      .ok { left := left, right := right,
            is_25_khz_spaced := [0, 25, 50, 75].contains last_two }

/-- `RadioFrequency::is_8_33_khz_spaced`: negation of the stored flag. -/
def RadioFrequency.is_8_33_khz_spaced (rf : RadioFrequency) : Bool :=
  ! rf.is_25_khz_spaced

/-- `RadioFrequency::frequency`: the pair of raw parts. -/
def RadioFrequency.frequency (rf : RadioFrequency) : Nat × Nat :=
  (rf.left, rf.right)

/-- `char::to_digit(10)` for the decimal digits: `some (c - '0')` when
`c` is an ASCII digit (code 48–57), else `none`. -/
def digitVal (c : Char) : Option Nat :=
  if 48 ≤ c.toNat ∧ c.toNat ≤ 57 then some (c.toNat - 48) else none

/-- The digit loop of `u16::from_str` for a non-negative number:
`acc = acc * 10 + d` with a checked-arithmetic overflow test against
`u16::MAX` at every step; a non-digit character fails with `invalidDigit`. -/
def parseDigitsPos : List Char → Nat → Except ParseIntError Nat
  | [], acc => .ok acc
  | c :: cs, acc =>
    match digitVal c with
    | none => .error .invalidDigit
    | some d =>
      let acc' := acc * 10 + d
      if U16_MAX < acc' then .error .posOverflow else parseDigitsPos cs acc'

/-- The digit loop of `u16::from_str` after a `-` sign: the unsigned
accumulator stays 0, so any nonzero digit fails with `negOverflow`
(`"-0"` parses to 0). -/
def parseDigitsNeg : List Char → Except ParseIntError Nat
  | [] => .ok 0
  | c :: cs =>
    match digitVal c with
    | none => .error .invalidDigit
    | some d => if d = 0 then parseDigitsNeg cs else .error .negOverflow

/-- `u16::from_str`: empty input fails with `empty`; an optional leading
`+`/`-` sign is stripped (sign alone fails with `empty`); then the digit loop. -/
def parseU16 : List Char → Except ParseIntError Nat
  | [] => .error .empty
  | c :: cs =>
    if c = '+' then
      if cs = [] then .error .empty else parseDigitsPos cs 0
    else if c = '-' then
      if cs = [] then .error .empty else parseDigitsNeg cs
    else
      parseDigitsPos (c :: cs) 0

/-- Rust `str::split('.')` as a list of segments: always at least one
segment, one extra segment per dot. -/
def splitDot : List Char → List (List Char)
  | [] => [[]]
  | c :: cs =>
    if c = '.' then [] :: splitDot cs
    else
      match splitDot cs with
      | [] => [[c]]
      | s :: rest => (c :: s) :: rest

/-- The `From<ParseIntError> for RadioFrequencyError` conversion applied by
the `?` operator in `from_str`. -/
def liftParse (r : Except ParseIntError Nat) : Except RadioFrequencyError Nat :=
  match r with
  | .ok n => .ok n
  | .error e => .error (.parseError e)

/-- `<RadioFrequency as FromStr>::from_str`: split on `.`, take the first
segment (`NotEnoughParts` if absent) and parse it as u16, take the second
segment (`NotEnoughParts` if absent) and parse it, then `RadioFrequency::new`. -/
def from_str (s : List Char) : Except RadioFrequencyError RadioFrequency :=
  let parts := splitDot s
  match parts[0]? with
  | none => .error .notEnoughParts
  | some p0 =>
    match liftParse (parseU16 p0) with
    | .error e => .error e
    | .ok left =>
      match parts[1]? with
      | none => .error .notEnoughParts
      | some p1 =>
        match liftParse (parseU16 p1) with
        | .error e => .error e
        | .ok right => RadioFrequency.new left right

/-- The ASCII character of a decimal digit (0–9). -/
def digitChar (d : Nat) : Char :=
  match d with
  | 0 => '0' | 1 => '1' | 2 => '2' | 3 => '3' | 4 => '4'
  | 5 => '5' | 6 => '6' | 7 => '7' | 8 => '8' | 9 => '9'
  | _ => '*'

/-- Fuelled decimal-digit rendering (most significant digit first); the
fuel makes the definition structurally recursive, hence kernel-evaluable. -/
def toCharsAux : Nat → Nat → List Char → List Char
  | 0, _, acc => acc
  | fuel + 1, n, acc =>
    let acc' := digitChar (n % 10) :: acc
    if n < 10 then acc' else toCharsAux fuel (n / 10) acc'

/-- The decimal digits of `n`, as Rust's `Display for u16` renders them. -/
def natToChars (n : Nat) : List Char :=
  toCharsAux (n + 1) n []

/-- Rust's `{:03}` format: the decimal digits of `n`, left-padded with `'0'`
to a minimum width of 3 (wider values keep their full width). -/
def fmt03 (n : Nat) : List Char :=
  let ds := natToChars n
  List.replicate (3 - ds.length) '0' ++ ds

/-- `Display for RadioFrequency`: `write!(f, "{:03}.{:03}", left, right)`. -/
def display (rf : RadioFrequency) : List Char :=
  fmt03 rf.left ++ '.' :: fmt03 rf.right

/-- Rust `Ord for u16` as a three-way comparison. -/
def natCmp (a b : Nat) : Ordering :=
  if a < b then .lt else if a = b then .eq else .gt

/-- Rust `Ord for bool`: `false < true`. -/
def boolCmp : Bool → Bool → Ordering
  | false, true => .lt
  | true, false => .gt
  | _, _ => .eq

/-- The derived `Ord for RadioFrequency`: lexicographic by field declaration
order, `left` then `right` then `is_25_khz_spaced`. -/
def RadioFrequency.cmp (a b : RadioFrequency) : Ordering :=
  match natCmp a.left b.left with
  | .eq =>
    match natCmp a.right b.right with
    | .eq => boolCmp a.is_25_khz_spaced b.is_25_khz_spaced
    | o => o
  | o => o

/-! ## Derived total order (claim C9) -/

theorem cmp_lt_iff (a b : RadioFrequency) :
    RadioFrequency.cmp a b = .lt ↔
      (a.left < b.left ∨ (a.left = b.left ∧ (a.right < b.right ∨
        (a.right = b.right ∧ a.is_25_khz_spaced = false ∧ b.is_25_khz_spaced = true)))) := by
  unfold RadioFrequency.cmp natCmp boolCmp
  rcases Nat.lt_trichotomy a.left b.left with h1 | h1 | h1
  · simp [h1]
  · simp only [h1, lt_self_iff_false, if_false, if_true, reduceIte]
    rcases Nat.lt_trichotomy a.right b.right with h2 | h2 | h2
    · simp [h2]
    · simp only [h2, lt_self_iff_false, if_false, reduceIte]
      cases ha : a.is_25_khz_spaced <;> cases hb : b.is_25_khz_spaced <;> simp [h2]
    · have : ¬ a.right < b.right := Nat.lt_asymm h2
      have h2' : a.right ≠ b.right := Nat.ne_of_gt h2
      simp [this, h2', Nat.lt_asymm h2]
  · have : ¬ a.left < b.left := Nat.lt_asymm h1
    have h1' : a.left ≠ b.left := Nat.ne_of_gt h1
    simp [this, h1']

theorem cmp_eq_iff (a b : RadioFrequency) :
    RadioFrequency.cmp a b = .eq ↔ a = b := by
  unfold RadioFrequency.cmp natCmp boolCmp
  have hext : a = b ↔ (a.left = b.left ∧ a.right = b.right ∧
      a.is_25_khz_spaced = b.is_25_khz_spaced) := by
    cases a; cases b; simp [RadioFrequency.mk.injEq]
  rw [hext]
  rcases Nat.lt_trichotomy a.left b.left with h1 | h1 | h1
  · simp [h1, Nat.ne_of_lt h1]
  · simp only [h1, lt_self_iff_false, if_false, reduceIte]
    rcases Nat.lt_trichotomy a.right b.right with h2 | h2 | h2
    · simp [h2, Nat.ne_of_lt h2]
    · simp only [h2, lt_self_iff_false, if_false, reduceIte]
      cases ha : a.is_25_khz_spaced <;> cases hb : b.is_25_khz_spaced <;> simp [h2]
    · simp [Nat.lt_asymm h2, Nat.ne_of_gt h2]
  · simp [Nat.lt_asymm h1, Nat.ne_of_gt h1]

theorem cmp_gt_iff (a b : RadioFrequency) :
    RadioFrequency.cmp a b = .gt ↔
      (b.left < a.left ∨ (b.left = a.left ∧ (b.right < a.right ∨
        (b.right = a.right ∧ b.is_25_khz_spaced = false ∧ a.is_25_khz_spaced = true)))) := by
  unfold RadioFrequency.cmp natCmp boolCmp
  rcases Nat.lt_trichotomy a.left b.left with h1 | h1 | h1
  · simp [h1, Nat.lt_asymm h1, Nat.ne_of_gt h1, (Nat.ne_of_lt h1).symm]
  · simp only [h1, lt_self_iff_false, if_false, reduceIte]
    rcases Nat.lt_trichotomy a.right b.right with h2 | h2 | h2
    · simp [h2, Nat.lt_asymm h2, (Nat.ne_of_lt h2).symm]
    · simp only [h2, lt_self_iff_false, if_false, reduceIte]
      cases ha : a.is_25_khz_spaced <;> cases hb : b.is_25_khz_spaced <;> simp [h2]
    · simp [h1, h2, Nat.lt_asymm h2, Nat.ne_of_gt h2, (Nat.ne_of_lt h2).symm]
  · simp [Nat.lt_asymm h1, Nat.ne_of_gt h1, h1]

theorem cmp_trans_aux (a b c : RadioFrequency)
    (hab : RadioFrequency.cmp a b = .lt) (hbc : RadioFrequency.cmp b c = .lt) :
    RadioFrequency.cmp a c = .lt := by
  rw [cmp_lt_iff] at hab hbc ⊢
  rcases hab with h | ⟨e1, h⟩ <;> rcases hbc with g | ⟨e2, g⟩
  · exact Or.inl (lt_trans h g)
  · exact Or.inl (by omega)
  · exact Or.inl (by omega)
  · refine Or.inr ⟨e1.trans e2, ?_⟩
    rcases h with h | ⟨f1, ha25, hb25⟩ <;> rcases g with g | ⟨f2, hb25x, hc25⟩
    · exact Or.inl (lt_trans h g)
    · exact Or.inl (by omega)
    · exact Or.inl (by omega)
    · rw [hb25] at hb25x
      exact absurd hb25x (by simp)

/-- C9: the derived comparison is a total order that compares first by `left`,
then by `right`, then by the 25 kHz spacing flag: it is reflexive-antisymmetric
(`eq` exactly on equal instances), transitive, and total (`lt` one way iff `gt`
the other); a smaller `left` orders first, and among equal `left` values a
smaller `right` orders first. -/
theorem claim_C9_total_order (a b c : RadioFrequency) :
    (RadioFrequency.cmp a b = .eq ↔ a = b) ∧
    (RadioFrequency.cmp a b = .lt → RadioFrequency.cmp b c = .lt →
      RadioFrequency.cmp a c = .lt) ∧
    (RadioFrequency.cmp a b = .lt ↔ RadioFrequency.cmp b a = .gt) ∧
    (a.left < b.left → RadioFrequency.cmp a b = .lt) ∧
    (a.left = b.left → a.right < b.right → RadioFrequency.cmp a b = .lt) := by
  refine ⟨cmp_eq_iff a b, cmp_trans_aux a b c, ?_, ?_, ?_⟩
  · rw [cmp_lt_iff a b, cmp_gt_iff b a]
  · intro h
    rw [cmp_lt_iff]
    exact Or.inl h
  · intro h1 h2
    rw [cmp_lt_iff]
    exact Or.inr ⟨h1, Or.inl h2⟩

/-! ## Construction and validation (claims C1 - C4) -/

theorem contains_iff_mem (l : List Nat) (x : Nat) : l.contains x = true ↔ x ∈ l := by
  simp [List.contains]

theorem new_ok_of_valid (l r : Nat) (hl1 : 118 ≤ l) (hl2 : l ≤ 137)
    (hr : (r % 100) ∈ VALID_CHANNELS) :
    RadioFrequency.new l r =
      .ok ⟨l, r, [0, 25, 50, 75].contains (r % 100)⟩ := by
  unfold RadioFrequency.new
  rw [if_neg, if_neg]
  · simpa [contains_iff_mem] using hr
  · exact fun h => h ⟨hl1, hl2⟩

theorem new_inv (l r : Nat) (rf : RadioFrequency)
    (h : RadioFrequency.new l r = .ok rf) :
    118 ≤ l ∧ l ≤ 137 ∧ (r % 100) ∈ VALID_CHANNELS ∧
      rf = ⟨l, r, [0, 25, 50, 75].contains (r % 100)⟩ := by
  unfold RadioFrequency.new at h
  by_cases h1 : 118 ≤ l ∧ l ≤ 137
  · rw [if_neg (fun hn => hn h1)] at h
    by_cases h2 : VALID_CHANNELS.contains (r % 100)
    · rw [if_neg (fun hn => hn h2)] at h
      cases h
      exact ⟨h1.1, h1.2, (contains_iff_mem _ _).mp h2, rfl⟩
    · rw [if_pos h2] at h
      cases h
  · rw [if_pos h1] at h
    cases h

theorem new_err_left (l r : Nat) (h : ¬ (118 ≤ l ∧ l ≤ 137)) :
    RadioFrequency.new l r = .error .invalidFrequency := by
  unfold RadioFrequency.new
  rw [if_pos h]

theorem new_err_right (l r : Nat) (h : (r % 100) ∉ VALID_CHANNELS) :
    RadioFrequency.new l r = .error .invalidFrequency := by
  unfold RadioFrequency.new
  by_cases h1 : 118 ≤ l ∧ l ≤ 137
  · rw [if_neg (fun hn => hn h1), if_pos]
    exact fun hc => h ((contains_iff_mem _ _).mp hc)
  · rw [if_pos h1]

theorem new_ne_notEnoughParts (l r : Nat) :
    RadioFrequency.new l r ≠ .error .notEnoughParts := by
  unfold RadioFrequency.new
  by_cases h1 : 118 ≤ l ∧ l ≤ 137
  · rw [if_neg (fun hn => hn h1)]
    by_cases h2 : VALID_CHANNELS.contains (r % 100)
    · rw [if_neg (fun hn => hn h2)]
      simp
    · rw [if_pos h2]
      simp
  · rw [if_pos h1]
    simp

/-- C1: for every `left` in [118, 137] and every u16 `right` whose value mod 100
is in the 16-element valid-channel set, `new(left, right)` returns `Ok`; on the
resulting instance `frequency()` is exactly `(left, right)`, and `left()` and
`right()` return the original arguments unchanged. -/
theorem claim_C1_new_valid_ok (l r : Nat) (_hlu : l ≤ U16_MAX) (_hru : r ≤ U16_MAX)
    (hl1 : 118 ≤ l) (hl2 : l ≤ 137) (hr : (r % 100) ∈ VALID_CHANNELS) :
    ∃ rf : RadioFrequency, RadioFrequency.new l r = .ok rf ∧
      rf.frequency = (l, r) ∧ rf.left = l ∧ rf.right = r :=
  ⟨_, new_ok_of_valid l r hl1 hl2 hr, rfl, rfl, rfl⟩

/-- Witness for C1 at `new(120, 905)`. -/
theorem claim_C1_witness :
    ∃ rf : RadioFrequency, RadioFrequency.new 120 905 = .ok rf ∧
      rf.frequency = (120, 905) ∧ rf.left = 120 ∧ rf.right = 905 :=
  claim_C1_new_valid_ok 120 905 (by decide) (by decide) (by decide) (by decide) (by decide)

/-- C2: for every u16 `left` outside [118, 137] and every u16 `right`
(valid or not), `new(left, right)` returns `Err(InvalidFrequency)`. -/
theorem claim_C2_new_bad_left (l r : Nat) (_hlu : l ≤ U16_MAX) (_hru : r ≤ U16_MAX)
    (h : ¬ (118 ≤ l ∧ l ≤ 137)) :
    RadioFrequency.new l r = .error .invalidFrequency :=
  new_err_left l r h

/-- Witness for C2 at `new(110, 300)` (and 300 mod 100 = 0 is itself valid). -/
theorem claim_C2_witness :
    RadioFrequency.new 110 300 = .error .invalidFrequency :=
  claim_C2_new_bad_left 110 300 (by decide) (by decide) (by decide)

/-- C3: for every `left` in [118, 137] and every u16 `right` whose value mod 100
is not in the 16-element valid-channel set, `new(left, right)` returns
`Err(InvalidFrequency)`. -/
theorem claim_C3_new_bad_right (l r : Nat) (_hlu : l ≤ U16_MAX) (_hru : r ≤ U16_MAX)
    (_hl1 : 118 ≤ l) (_hl2 : l ≤ 137) (h : (r % 100) ∉ VALID_CHANNELS) :
    RadioFrequency.new l r = .error .invalidFrequency :=
  new_err_right l r h

/-- Witness for C3 at `new(118, 3)`. -/
theorem claim_C3_witness :
    RadioFrequency.new 118 3 = .error .invalidFrequency :=
  claim_C3_new_bad_right 118 3 (by decide) (by decide) (by decide) (by decide) (by decide)

/-- C4: on every successfully constructed instance, `is_25_khz_spaced()` is
true iff `right mod 100 ∈ {0, 25, 50, 75}`, and `is_8_33_khz_spaced()` is the
exact boolean negation of `is_25_khz_spaced()`. -/
theorem claim_C4_spacing (l r : Nat) (rf : RadioFrequency)
    (h : RadioFrequency.new l r = .ok rf) :
    (rf.is_25_khz_spaced = true ↔
      (r % 100 = 0 ∨ r % 100 = 25 ∨ r % 100 = 50 ∨ r % 100 = 75)) ∧
    rf.is_8_33_khz_spaced = ! rf.is_25_khz_spaced := by
  obtain ⟨-, -, -, rfl⟩ := new_inv l r rf h
  refine ⟨?_, rfl⟩
  simp [contains_iff_mem]

/-- Witness for C4 at `new(120, 905)`: an 8.33 kHz channel. -/
theorem claim_C4_witness :
    ((⟨120, 905, false⟩ : RadioFrequency).is_25_khz_spaced = true ↔
      (905 % 100 = 0 ∨ 905 % 100 = 25 ∨ 905 % 100 = 50 ∨ 905 % 100 = 75)) ∧
    (⟨120, 905, false⟩ : RadioFrequency).is_8_33_khz_spaced =
      ! (⟨120, 905, false⟩ : RadioFrequency).is_25_khz_spaced :=
  claim_C4_spacing 120 905 ⟨120, 905, false⟩ (by decide)

/-! ## Splitting on dots (Rust `str::split`) -/

theorem splitDot_ne_nil (s : List Char) : splitDot s ≠ [] := by
  cases s with
  | nil => simp [splitDot]
  | cons c cs =>
    unfold splitDot
    by_cases h : c = '.'
    · simp [h]
    · rw [if_neg h]
      cases splitDot cs <;> simp

theorem splitDot_length (s : List Char) :
    (splitDot s).length = s.count '.' + 1 := by
  induction s with
  | nil => simp [splitDot]
  | cons c cs ih =>
    unfold splitDot
    by_cases h : c = '.'
    · subst h
      simp only [if_pos rfl, List.length_cons, List.count_cons]
      simp [ih]
    · rw [if_neg h]
      obtain ⟨hd, tl, heq⟩ := List.exists_cons_of_ne_nil (splitDot_ne_nil cs)
      rw [heq]
      rw [heq] at ih
      simp only [List.length_cons] at ih ⊢
      simp [List.count_cons, Ne.symm h, ih]

theorem splitDot_no_dot (s : List Char) (h : '.' ∉ s) : splitDot s = [s] := by
  induction s with
  | nil => rfl
  | cons c cs ih =>
    have hc : c ≠ '.' := fun hc => h (by rw [hc]; exact List.mem_cons_self _ _)
    have hcs : '.' ∉ cs := fun hm => h (List.mem_cons_of_mem c hm)
    unfold splitDot
    rw [if_neg hc, ih hcs]

theorem mem_splitDot_no_dot (s : List Char) : ∀ p ∈ splitDot s, '.' ∉ p := by
  induction s with
  | nil =>
    intro p hp
    simp [splitDot] at hp
    subst hp
    simp
  | cons c cs ih =>
    intro p hp
    unfold splitDot at hp
    by_cases h : c = '.'
    · rw [if_pos h] at hp
      rcases List.mem_cons.mp hp with rfl | hp'
      · simp
      · exact ih p hp'
    · rw [if_neg h] at hp
      obtain ⟨hd, tl, heq⟩ := List.exists_cons_of_ne_nil (splitDot_ne_nil cs)
      rw [heq] at hp
      rcases List.mem_cons.mp hp with rfl | hp'
      · intro hmem
        rcases List.mem_cons.mp hmem with hdot | hmem'
        · exact h hdot.symm
        · exact ih hd (heq ▸ List.mem_cons_self hd tl) hmem'
      · exact ih p (heq ▸ List.mem_cons_of_mem hd hp')

theorem splitDot_append (a b : List Char) (h : '.' ∉ a) :
    splitDot (a ++ '.' :: b) = a :: splitDot b := by
  induction a with
  | nil => simp [splitDot]
  | cons c a' ih =>
    have hc : c ≠ '.' := fun hc => h (by rw [hc]; exact List.mem_cons_self _ _)
    have ha' : '.' ∉ a' := fun hm => h (List.mem_cons_of_mem c hm)
    simp only [List.cons_append]
    conv_lhs => unfold splitDot
    rw [if_neg hc, ih ha']

/-! ## Decimal digits, parsing and formatting -/

/-- An ASCII decimal digit (codes 48–57). -/
def isDigitChar (c : Char) : Prop := 48 ≤ c.toNat ∧ c.toNat ≤ 57

instance (c : Char) : Decidable (isDigitChar c) := by
  unfold isDigitChar
  infer_instance

/-- Reference decimal rendering of a natural number, most significant digit
first; proved equal to the fuelled `natToChars`. -/
def natDigits (n : Nat) : List Char :=
  if _h : n < 10 then [digitChar n]
  else natDigits (n / 10) ++ [digitChar (n % 10)]
termination_by n
decreasing_by exact Nat.div_lt_self (by omega) (by omega)

/-- The decimal value of a digit string, most significant digit first. -/
def valStep (acc : Nat) (c : Char) : Nat := acc * 10 + (c.toNat - 48)

/-- The numeric value a digit string denotes. -/
def charsVal (ds : List Char) : Nat := List.foldl valStep 0 ds

theorem digitChar_toNat (d : Nat) (h : d < 10) : (digitChar d).toNat = 48 + d := by
  interval_cases d <;> rfl

theorem isDigitChar_digitChar (d : Nat) (h : d < 10) : isDigitChar (digitChar d) := by
  interval_cases d <;> decide

theorem toCharsAux_eq (fuel : Nat) :
    ∀ n acc, n < fuel → toCharsAux fuel n acc = natDigits n ++ acc := by
  induction fuel with
  | zero => intro n acc h; omega
  | succ fuel ih =>
    intro n acc h
    unfold toCharsAux
    by_cases h10 : n < 10
    · rw [if_pos h10, natDigits, dif_pos h10]
      simp [Nat.mod_eq_of_lt h10]
    · have hdiv : n / 10 < fuel := by omega
      rw [if_neg h10, ih (n / 10) _ hdiv]
      conv_rhs => rw [natDigits]
      rw [dif_neg h10]
      simp

theorem natToChars_eq (n : Nat) : natToChars n = natDigits n := by
  unfold natToChars
  rw [toCharsAux_eq (n + 1) n [] (Nat.lt_succ_self n), List.append_nil]

theorem natDigits_ne_nil (n : Nat) : natDigits n ≠ [] := by
  rw [natDigits]
  by_cases h : n < 10
  · rw [dif_pos h]; simp
  · rw [dif_neg h]; simp

theorem natDigits_digits (n : Nat) : ∀ c ∈ natDigits n, isDigitChar c := by
  induction n using Nat.strong_induction_on with
  | _ n ih =>
    intro c hc
    rw [natDigits] at hc
    by_cases h : n < 10
    · rw [dif_pos h] at hc
      simp at hc
      subst hc
      exact isDigitChar_digitChar n h
    · rw [dif_neg h] at hc
      rcases List.mem_append.mp hc with h1 | h1
      · exact ih (n / 10) (by omega) c h1
      · simp at h1
        subst h1
        exact isDigitChar_digitChar (n % 10) (Nat.mod_lt n (by omega))

theorem foldl_valStep_natDigits (n : Nat) :
    ∀ a, List.foldl valStep a (natDigits n) = a * 10 ^ (natDigits n).length + n := by
  induction n using Nat.strong_induction_on with
  | _ n ih =>
    intro a
    rw [natDigits]
    by_cases h : n < 10
    · rw [dif_pos h]
      simp [valStep, digitChar_toNat n h]
    · rw [dif_neg h]
      rw [List.foldl_append, ih (n / 10) (by omega) a]
      simp only [List.foldl_cons, List.foldl_nil, List.length_append,
        List.length_singleton]
      unfold valStep
      rw [digitChar_toNat (n % 10) (Nat.mod_lt n (by omega)), pow_succ]
      have hmod : 48 + n % 10 - 48 = n % 10 := by omega
      rw [hmod, Nat.add_mul]
      have hdm : n / 10 * 10 + n % 10 = n := by omega
      rw [mul_assoc]
      omega

theorem foldl_valStep_le (ds : List Char) : ∀ a, a ≤ List.foldl valStep a ds := by
  induction ds with
  | nil => intro a; simp
  | cons c cs ih =>
    intro a
    simp only [List.foldl_cons]
    calc a ≤ valStep a c := by unfold valStep; omega
      _ ≤ List.foldl valStep (valStep a c) cs := ih (valStep a c)

theorem parseDigitsPos_ok (ds : List Char) :
    ∀ a, (∀ c ∈ ds, isDigitChar c) → List.foldl valStep a ds ≤ U16_MAX →
      parseDigitsPos ds a = .ok (List.foldl valStep a ds) := by
  induction ds with
  | nil => intro a _ _; rfl
  | cons c cs ih =>
    intro a hd hle
    have hc : isDigitChar c := hd c (List.mem_cons_self _ _)
    have hc' : 48 ≤ c.toNat ∧ c.toNat ≤ 57 := hc
    have hdv : digitVal c = some (c.toNat - 48) := by
      unfold digitVal
      rw [if_pos hc']
    simp only [List.foldl_cons] at hle ⊢
    have hstep : valStep a c = a * 10 + (c.toNat - 48) := rfl
    have hbound : valStep a c ≤ U16_MAX :=
      le_trans (foldl_valStep_le cs (valStep a c)) hle
    simp only [parseDigitsPos, hdv]
    rw [if_neg (by rw [← hstep]; omega)]
    rw [← hstep]
    exact ih (valStep a c) (fun x hx => hd x (List.mem_cons_of_mem c hx)) hle

theorem parseU16_digits (ds : List Char) (hne : ds ≠ [])
    (hd : ∀ c ∈ ds, isDigitChar c) (hle : List.foldl valStep 0 ds ≤ U16_MAX) :
    parseU16 ds = .ok (List.foldl valStep 0 ds) := by
  cases ds with
  | nil => cases hne rfl
  | cons c cs =>
    have hc : isDigitChar c := hd c (List.mem_cons_self _ _)
    have h1 : c ≠ '+' := by intro h; rw [h] at hc; revert hc; decide
    have h2 : c ≠ '-' := by intro h; rw [h] at hc; revert hc; decide
    simp only [parseU16]
    rw [if_neg h1, if_neg h2]
    exact parseDigitsPos_ok (c :: cs) 0 hd hle

theorem foldl_valStep_replicate_zero (k : Nat) :
    List.foldl valStep 0 (List.replicate k '0') = 0 := by
  induction k with
  | zero => rfl
  | succ k ih =>
    rw [List.replicate_succ, List.foldl_cons]
    have : valStep 0 '0' = 0 := rfl
    rw [this, ih]

theorem charsVal_fmt03 (n : Nat) : charsVal (fmt03 n) = n := by
  unfold charsVal fmt03
  rw [natToChars_eq, List.foldl_append, foldl_valStep_replicate_zero,
    foldl_valStep_natDigits n 0]
  simp

theorem fmt03_digits (n : Nat) : ∀ c ∈ fmt03 n, isDigitChar c := by
  unfold fmt03
  rw [natToChars_eq]
  intro c hc
  rcases List.mem_append.mp hc with h | h
  · rw [List.eq_of_mem_replicate h]
    decide
  · exact natDigits_digits n c h

theorem fmt03_ne_nil (n : Nat) : fmt03 n ≠ [] := by
  unfold fmt03
  rw [natToChars_eq]
  intro h
  exact natDigits_ne_nil n (List.append_eq_nil.mp h).2

theorem fmt03_no_dot (n : Nat) : '.' ∉ fmt03 n := by
  intro h
  have := fmt03_digits n '.' h
  revert this
  decide

theorem fmt03_length (n : Nat) : (fmt03 n).length = max 3 (natToChars n).length := by
  unfold fmt03
  have h1 : (natToChars n).length ≥ 1 := by
    rw [natToChars_eq]
    exact List.length_pos.mpr (natDigits_ne_nil n)
  simp only [List.length_append, List.length_replicate]
  omega

theorem parseU16_fmt03 (n : Nat) (h : n ≤ U16_MAX) : parseU16 (fmt03 n) = .ok n := by
  have hv : List.foldl valStep 0 (fmt03 n) = n := charsVal_fmt03 n
  rw [parseU16_digits (fmt03 n) (fmt03_ne_nil n) (fmt03_digits n) (by rw [hv]; exact h), hv]

/-! ## Parsing at the from_str level -/

theorem from_str_fmt_pair (l r : Nat) (hl : l ≤ U16_MAX) (hr : r ≤ U16_MAX) :
    from_str (fmt03 l ++ '.' :: fmt03 r) = RadioFrequency.new l r := by
  have hsplit : splitDot (fmt03 l ++ '.' :: fmt03 r) = [fmt03 l, fmt03 r] := by
    rw [splitDot_append _ _ (fmt03_no_dot l), splitDot_no_dot (fmt03 r) (fmt03_no_dot r)]
  simp only [from_str, hsplit, List.getElem?_cons_zero, List.getElem?_cons_succ,
    parseU16_fmt03 l hl, parseU16_fmt03 r hr, liftParse]

theorem from_str_dotless_numeric (s : List Char) (hdot : '.' ∉ s) (n : Nat)
    (hp : parseU16 s = .ok n) : from_str s = .error .notEnoughParts := by
  have hsd : splitDot s = [s] := splitDot_no_dot s hdot
  simp only [from_str, hsd, List.getElem?_cons_zero, List.getElem?_cons_succ,
    List.getElem?_nil, hp, liftParse]

theorem from_str_notEnough_iff (s : List Char) :
    from_str s = .error .notEnoughParts ↔ ('.' ∉ s ∧ ∃ n, parseU16 s = .ok n) := by
  constructor
  · intro h
    rcases hsd : splitDot s with _ | ⟨p0, t⟩
    · exact absurd hsd (splitDot_ne_nil s)
    · simp only [from_str, hsd, List.getElem?_cons_zero] at h
      cases hp : parseU16 p0 with
      | error e =>
        simp only [hp, liftParse] at h
        simp at h
      | ok n =>
        simp only [hp, liftParse] at h
        cases t with
        | nil =>
          have hc : s.count '.' = 0 := by
            have hlen := splitDot_length s
            rw [hsd] at hlen
            simp at hlen
            omega
          have hdot : '.' ∉ s := List.count_eq_zero.mp hc
          have hps : p0 = s := by
            have h2 : splitDot s = [s] := splitDot_no_dot s hdot
            rw [hsd] at h2
            exact (List.cons.injEq _ _ _ _ ▸ h2).1
          subst hps
          exact ⟨hdot, n, hp⟩
        | cons p1 t' =>
          simp only [List.getElem?_cons_succ, List.getElem?_cons_zero] at h
          cases hp1 : parseU16 p1 with
          | error e =>
            simp only [hp1, liftParse] at h
            simp at h
          | ok m =>
            simp only [hp1, liftParse] at h
            exact absurd h (new_ne_notEnoughParts n m)
  · rintro ⟨hdot, n, hp⟩
    exact from_str_dotless_numeric s hdot n hp

/-! ## Claims C5 - C8, C10 -/

/-- C5: formatting any instance yields the digits of `left` zero-padded to at
least three characters, a literal dot, then the digits of `right` zero-padded
to at least three characters; `right` is never reduced modulo 1000 — the
segment's decimal value is exactly `right`, growing wider than 3 characters
when `right` exceeds 999. -/
theorem claim_C5_display_format (rf : RadioFrequency) :
    ∃ a b : List Char,
      display rf = a ++ '.' :: b ∧
      (∀ c ∈ a, isDigitChar c) ∧ (∀ c ∈ b, isDigitChar c) ∧
      a.length = max 3 (natToChars rf.left).length ∧
      b.length = max 3 (natToChars rf.right).length ∧
      charsVal a = rf.left ∧ charsVal b = rf.right :=
  ⟨fmt03 rf.left, fmt03 rf.right, rfl, fmt03_digits _, fmt03_digits _,
    fmt03_length _, fmt03_length _, charsVal_fmt03 _, charsVal_fmt03 _⟩

/-- C6: round-trip — every instance produced by `new` formats to a string that
parses back to an equal instance. -/
theorem claim_C6_round_trip (l r : Nat) (rf : RadioFrequency) (hr : r ≤ U16_MAX)
    (h : RadioFrequency.new l r = .ok rf) :
    from_str (display rf) = .ok rf := by
  obtain ⟨hl1, hl2, hmem, rfl⟩ := new_inv l r rf h
  have hl : l ≤ U16_MAX := le_trans hl2 (by decide)
  show from_str (fmt03 l ++ '.' :: fmt03 r) = _
  rw [from_str_fmt_pair l r hl hr, h]

/-- Witness for C6 at `new(120, 905)`: "120.905" parses back to the instance. -/
theorem claim_C6_witness :
    from_str (display ⟨120, 905, false⟩) = .ok (⟨120, 905, false⟩ : RadioFrequency) :=
  claim_C6_round_trip 120 905 ⟨120, 905, false⟩ (by decide) (by decide)

/-- C7: on any input with two or more dots, parsing consumes only the first two
dot-separated segments — the result equals parsing just those two segments
joined by a dot, everything after the second dot being ignored. -/
theorem claim_C7_extra_dots (s : List Char) (h : 2 ≤ s.count '.') :
    from_str s =
      from_str ((splitDot s).getD 0 [] ++ '.' :: (splitDot s).getD 1 []) := by
  have hlen : 3 ≤ (splitDot s).length := by
    rw [splitDot_length]
    omega
  rcases hsd : splitDot s with _ | ⟨p0, _ | ⟨p1, rest⟩⟩
  · exact absurd hsd (splitDot_ne_nil s)
  · rw [hsd] at hlen
    simp at hlen
  · have h0 : '.' ∉ p0 :=
      mem_splitDot_no_dot s p0 (by rw [hsd]; exact List.mem_cons_self _ _)
    have h1 : '.' ∉ p1 :=
      mem_splitDot_no_dot s p1
        (by rw [hsd]; exact List.mem_cons_of_mem _ (List.mem_cons_self _ _))
    have hr : splitDot (p0 ++ '.' :: p1) = [p0, p1] := by
      rw [splitDot_append p0 p1 h0, splitDot_no_dot p1 h1]
    simp only [from_str, hsd, hr, List.getD_cons_zero, List.getD_cons_succ,
      List.getElem?_cons_zero, List.getElem?_cons_succ]

/-- Witness for C7 at `"118.005.9"`. -/
theorem claim_C7_witness :
    from_str ['1', '1', '8', '.', '0', '0', '5', '.', '9'] =
      from_str ((splitDot ['1', '1', '8', '.', '0', '0', '5', '.', '9']).getD 0 [] ++
        '.' :: (splitDot ['1', '1', '8', '.', '0', '0', '5', '.', '9']).getD 1 []) :=
  claim_C7_extra_dots ['1', '1', '8', '.', '0', '0', '5', '.', '9'] (by decide)

/-- C8 counterexample: `"abc"` contains no dot, yet parsing it fails with
`ParseError(InvalidDigit)`, not `NotEnoughParts` — the first segment is parsed
before the second is even requested. -/
theorem claim_C8_counterexample :
    ('.' ∉ (['a', 'b', 'c'] : List Char)) ∧
    from_str ['a', 'b', 'c'] ≠ .error .notEnoughParts ∧
    from_str ['a', 'b', 'c'] = .error (.parseError .invalidDigit) := by
  decide

/-- C8 (amended): a dotless input fails with `NotEnoughParts` exactly when its
entire text parses as a u16; then the single segment supplies `left` and the
missing second segment triggers the error. -/
theorem claim_C8_amended_dotless (s : List Char) (hdot : '.' ∉ s) (n : Nat)
    (hp : parseU16 s = .ok n) : from_str s = .error .notEnoughParts :=
  from_str_dotless_numeric s hdot n hp

/-- Witness for amended C8 at `"118"`. -/
theorem claim_C8_amended_witness :
    from_str ['1', '1', '8'] = .error .notEnoughParts :=
  claim_C8_amended_dotless ['1', '1', '8'] (by decide) 118 (by decide)

/-- C10: `parse` returns `NotEnoughParts` iff the input has no dot and parses
entirely as a u16; the first dot-split segment always exists (the split is
never empty), a dotless non-numeric input such as `"abc"` yields `ParseError`,
and an input ending in a dot such as `"118."` yields `ParseError` from the
empty second segment. -/
theorem claim_C10_notEnoughParts_iff (s : List Char) :
    (from_str s = .error .notEnoughParts ↔ ('.' ∉ s ∧ ∃ n, parseU16 s = .ok n)) ∧
    splitDot s ≠ [] ∧
    from_str ['a', 'b', 'c'] = .error (.parseError .invalidDigit) ∧
    from_str ['1', '1', '8', '.'] = .error (.parseError .empty) :=
  ⟨from_str_notEnough_iff s, splitDot_ne_nil s, by decide, by decide⟩

end AviationRadio
